import Mathlib

/-!
Shallow embedding of `optimize_survivor_pool` from `nfl_survivor_pool_2024.py`.

The Python function receives a data frame of game rows
(`Week`, `Home Team`, `Home Probability`, `Away Team`, `Away Probability`),
the current week, the list of already selected teams and an optimization
duration.  It builds a 0/1 integer program over pairs
`(week, team) ∈ remaining_weeks × available_teams`, whose objective sums, for
every row whose week is in the horizon and whose two teams are both
available, `Home Probability * x[(w, home)] + Away Probability * x[(w, away)]`,
subject to: each available team is picked at most once, and each remaining
week picks exactly one team.  The program is handed to an external exact
solver (`pulp`); afterwards, for every pair with value 1, the first matching
row is looked up and a metrics record (including a templated reason string
with 4-decimal formatting) is produced.

Probabilities (Python floats) are embedded as rationals.  A solver solution
is embedded as a list `σ` of teams aligned with `remaining_weeks` (the
week-exactly-once constraint makes every feasible 0/1 point of the program
have this shape); `feasible` transcribes the program's constraints, and
`codeWeight` its objective.  The exact solve delegated to `pulp` is modelled
by `bruteSolve`, an enumeration of all candidate solutions that returns the
first one maximizing `codeWeight`; every claim that depends only on
feasibility is proved for arbitrary feasible solutions, so it covers any
exact solver output.
-/

/-- One row of the odds data frame. -/
structure Row where
  week : Int
  home : String
  homeProb : ℚ
  away : String
  awayProb : ℚ
deriving DecidableEq, Repr

/-- The input of `optimize_survivor_pool`: the odds data frame plus the
`current_week`, `selected_teams` and `optimization_duration` arguments. -/
structure Inp where
  rows : List Row
  current_week : Int
  selected_teams : List String
  optimization_duration : Int
deriving DecidableEq, Repr

/-- First-occurrence deduplication, as `pandas.unique` produces. -/
def uniqueFirst {α : Type} [DecidableEq α] (l : List α) : List α :=
  l.foldl (fun acc a => if a ∈ acc then acc else acc ++ [a]) []

/-- `max(weeks)`; the Python call presupposes a nonempty list. -/
def maxList : List Int → Int
  | [] => 0
  | a :: l => l.foldl max a

/-- `weeks = nfl_odds_df['Week'].unique().tolist()`. -/
def weeksOf (inp : Inp) : List Int :=
  uniqueFirst (inp.rows.map (fun r => r.week))

/-- `end_week = min(current_week + optimization_duration - 1, max(weeks))`. -/
def end_week (inp : Inp) : Int :=
  min (inp.current_week + inp.optimization_duration - 1) (maxList (weeksOf inp))

/-- `remaining_weeks = [w for w in weeks if current_week <= w <= end_week]`. -/
def remaining_weeks (inp : Inp) : List Int :=
  (weeksOf inp).filter (fun w => decide (inp.current_week ≤ w) && decide (w ≤ end_week inp))

/-- `teams = list(set(home teams + away teams))` (a first-occurrence
determinization of the Python set order). -/
def teamsOf (inp : Inp) : List String :=
  uniqueFirst (inp.rows.map (fun r => r.home) ++ inp.rows.map (fun r => r.away))

/-- `available_teams = [t for t in teams if t not in selected_teams]`. -/
def available_teams (inp : Inp) : List String :=
  (teamsOf inp).filter (fun t => decide (t ∉ inp.selected_teams))

/-- The rows contributing to the program's objective: week inside the
horizon and, as the source's comprehension condition requires, both the home
and the away team available. -/
def objRows (inp : Inp) : List Row :=
  inp.rows.filter (fun r =>
    decide (r.week ∈ remaining_weeks inp) && decide (r.home ∈ available_teams inp) &&
      decide (r.away ∈ available_teams inp))

/-- The objective of the integer program built by the source, as a function
of the set `S` of pairs `(week, team)` whose variable is 1. -/
def codeWeight (inp : Inp) (S : List (Int × String)) : ℚ :=
  ((objRows inp).map (fun r =>
    (if (r.week, r.home) ∈ S then r.homeProb else 0) +
      (if (r.week, r.away) ∈ S then r.awayProb else 0))).sum

/-- The constraints of the integer program: every chosen pair lies in
`remaining_weeks × available_teams`, each available team is chosen at most
once, and each remaining week chooses exactly one team. -/
def feasible (inp : Inp) (S : List (Int × String)) : Bool :=
  ((available_teams inp).all fun t =>
      decide ((S.filter (fun p => decide (p.2 = t))).length ≤ 1)) &&
    ((remaining_weeks inp).all fun w =>
      decide ((S.filter (fun p => decide (p.1 = w))).length = 1)) &&
    (S.all fun p =>
      decide (p.1 ∈ remaining_weeks inp) && decide (p.2 ∈ available_teams inp))

/-- The chosen pairs of a solution list aligned with `remaining_weeks`. -/
def pairsOf (inp : Inp) (σ : List String) : List (Int × String) :=
  (remaining_weeks inp).zip σ

/-- A candidate solution: one team per remaining week, feasibly. -/
def goodSol (inp : Inp) (σ : List String) : Bool :=
  decide (σ.length = (remaining_weeks inp).length) && feasible inp (pairsOf inp σ)

/-- The objective of a solution list. -/
def codeWeightSol (inp : Inp) (σ : List String) : ℚ :=
  codeWeight inp (pairsOf inp σ)

/-- All lists of length `n` over the alphabet `ts`: the candidate space of
one team per remaining week. -/
def tuples : Nat → List String → List (List String)
  | 0, _ => [[]]
  | n + 1, ts => ts.flatMap (fun t => (tuples n ts).map (fun σ => t :: σ))

/-- All feasible candidate solutions. -/
def goodSols (inp : Inp) : List (List String) :=
  (tuples (remaining_weeks inp).length (available_teams inp)).filter (fun σ => goodSol inp σ)

/-- First maximizer of `f` in a list (deterministic tie-break). -/
def pickBest (f : List String → ℚ) : List (List String) → Option (List String)
  | [] => none
  | σ :: l =>
    match pickBest f l with
    | none => some σ
    | some τ => if f σ < f τ then some τ else some σ

/-- Modelled exact solve: `pulp` is an external exact 0/1 solver, embedded
as brute-force maximization of the program's objective over all feasible
candidate solutions. -/
def bruteSolve (inp : Inp) : Option (List String) :=
  pickBest (codeWeightSol inp) (goodSols inp)

/-- The apostrophe character, as it occurs in the source's reason template. -/
def apos : String :=
  String.singleton (Char.ofNat 39)

/-- Last decimal digit of `n`, as a character. -/
def digitChar (n : Nat) : Char :=
  if n % 10 = 0 then '0' else if n % 10 = 1 then '1' else if n % 10 = 2 then '2'
  else if n % 10 = 3 then '3' else if n % 10 = 4 then '4' else if n % 10 = 5 then '5'
  else if n % 10 = 6 then '6' else if n % 10 = 7 then '7' else if n % 10 = 8 then '8'
  else '9'

/-- Python's `f'{p:.4f}'` fixed-precision formatting, for the nonnegative
probabilities the source formats: round to 4 decimal places and print the
integer part, a point, and exactly four fractional digits. -/
def fmt4 (q : ℚ) : String :=
  (fun n => toString (n / 10000) ++ "." ++
      String.mk [digitChar (n % 10000 / 1000), digitChar (n % 10000 / 100),
        digitChar (n % 10000 / 10), digitChar (n % 10000)])
    (Rat.floor (q * 10000 + mkRat 1 2)).toNat

/-- The source's reason template:
`f'Selected {t} due to higher probability of {p:.4f} compared to opponent's probability of {q:.4f}'`. -/
def mkReason (t : String) (p q : ℚ) : String :=
  "Selected " ++ t ++ " due to higher probability of " ++ fmt4 p ++
    " compared to opponent" ++ apos ++ "s probability of " ++ fmt4 q

/-- One record of the returned metrics data frame. -/
structure Metric where
  week : Int
  selected : String
  opponent : String
  selectedProb : ℚ
  opponentProb : ℚ
  expectedValue : ℚ
  reason : String
deriving DecidableEq, Repr

/-- The row-lookup predicate of the metrics step:
`(Week == w) & ((Home Team == t) | (Away Team == t))`. -/
def rowMatches (w : Int) (t : String) (r : Row) : Bool :=
  decide (r.week = w) && (decide (r.home = t) || decide (r.away = t))

/-- The metrics record for one chosen pair: find the first matching row
(`.iloc[0]`, an `IndexError` when no row matches) and read the selected and
opponent team data off it. -/
def metricOfPair (inp : Inp) (w : Int) (t : String) : Except String Metric :=
  match inp.rows.find? (rowMatches w t) with
  | none => Except.error ("IndexError")
  | some r =>
    Except.ok
      { week := w
        selected := t
        opponent := if t = r.home then r.away else r.home
        selectedProb := if t = r.home then r.homeProb else r.awayProb
        opponentProb := if t = r.home then r.awayProb else r.homeProb
        expectedValue := if t = r.home then r.homeProb else r.awayProb
        reason := mkReason t (if t = r.home then r.homeProb else r.awayProb)
            (if t = r.home then r.awayProb else r.homeProb) }

/-- The metrics loop over the chosen pairs, stopping at the first failing
row lookup. -/
def buildMetricsAux (inp : Inp) : List (Int × String) → Except String (List Metric)
  | [] => Except.ok []
  | p :: l =>
    match metricOfPair inp p.1 p.2 with
    | Except.error e => Except.error e
    | Except.ok m =>
      match buildMetricsAux inp l with
      | Except.error e => Except.error e
      | Except.ok ms => Except.ok (m :: ms)

/-- The metrics extraction applied to a solution list. -/
def buildMetrics (inp : Inp) (σ : List String) : Except String (List Metric) :=
  buildMetricsAux inp (pairsOf inp σ)

/-- The whole pipeline: exact solve of the embedded integer program, then
metrics extraction.  `none` when the program has no feasible point (the
source then extracts from solver-dependent variable values). -/
def optimize_survivor_pool (inp : Inp) : Option (Except String (List Metric)) :=
  (bruteSolve inp).map (fun σ => buildMetrics inp σ)

/-- Modelled from the spec: a pick is eligible for a slot when it is not
excluded and participates in an event of that slot.  Used only to state the
spec's objective for comparison with the code's. -/
def eligiblePick (inp : Inp) (w : Int) (t : String) : Bool :=
  decide (t ∈ available_teams inp) && inp.rows.any (fun r => rowMatches w t r)

/-- Modelled from the spec: an assignment giving each slot of the horizon
exactly one eligible pick, each pick used at most once. -/
def eligibleSol (inp : Inp) (σ : List String) : Bool :=
  goodSol inp σ && (pairsOf inp σ).all (fun p => eligiblePick inp p.1 p.2)

/-- Modelled from the spec: the objective claimed by the spec, under which
an edge of an eligible pick contributes its full weight even when the
opponent in the same event is excluded. -/
def specWeight (inp : Inp) (S : List (Int × String)) : ℚ :=
  ((inp.rows.filter (fun r => decide (r.week ∈ remaining_weeks inp))).map (fun r =>
    (if r.home ∈ available_teams inp ∧ (r.week, r.home) ∈ S then r.homeProb else 0) +
      (if r.away ∈ available_teams inp ∧ (r.week, r.away) ∈ S then r.awayProb else 0))).sum

/-- Whether an `Except` result is a success. -/
def exceptIsOk : Except String (List Metric) → Bool
  | Except.ok _ => true
  | Except.error _ => false

/-- Two-week instance where the optimum must select a team whose
probability is lower than its opponent's in week 1. -/
def inpTie : Inp :=
  { rows :=
      [ { week := 1, home := "A", homeProb := mkRat 9 10, away := "B", awayProb := mkRat 5 10 }
      , { week := 2, home := "A", homeProb := mkRat 8 10, away := "B", awayProb := mkRat 3 10 } ]
    current_week := 1
    selected_teams := []
    optimization_duration := 2 }

/-- One-week instance where the excluded team "B" removes its whole event
from the objective, so the eligible favourite "A" carries zero weight. -/
def inpExcl : Inp :=
  { rows :=
      [ { week := 1, home := "A", homeProb := mkRat 9 10, away := "B", awayProb := mkRat 2 10 }
      , { week := 1, home := "C", homeProb := mkRat 3 10, away := "D", awayProb := mkRat 25 100 } ]
    current_week := 1
    selected_teams := ["B"]
    optimization_duration := 1 }

/-- Two-week instance where week 1 has zero eligible picks: both of its
teams are already selected. -/
def inpNoElig : Inp :=
  { rows :=
      [ { week := 1, home := "A", homeProb := mkRat 7 10, away := "B", awayProb := mkRat 4 10 }
      , { week := 2, home := "C", homeProb := mkRat 6 10, away := "D", awayProb := mkRat 3 10 } ]
    current_week := 1
    selected_teams := ["A", "B"]
    optimization_duration := 2 }

/-- The data of `inpTie` with a non-positive optimization duration: an
empty horizon. -/
def inpDur : Inp :=
  { rows := inpTie.rows
    current_week := 1
    selected_teams := []
    optimization_duration := 0 }

/-- One-week instance where team "A" appears in two events of week 1. -/
def inpConf : Inp :=
  { rows :=
      [ { week := 1, home := "A", homeProb := mkRat 5 10, away := "B", awayProb := mkRat 2 10 }
      , { week := 1, home := "A", homeProb := mkRat 4 10, away := "C", awayProb := mkRat 3 10 } ]
    current_week := 1
    selected_teams := []
    optimization_duration := 1 }


/-- The metrics extracted for `inpTie` and its optimal solution. -/
def msTie : List Metric :=
  [ { week := 1
      selected := "B"
      opponent := "A"
      selectedProb := mkRat 5 10
      opponentProb := mkRat 9 10
      expectedValue := mkRat 5 10
      reason := mkReason ("B") (mkRat 5 10) (mkRat 9 10) }
  , { week := 2
      selected := "A"
      opponent := "B"
      selectedProb := mkRat 8 10
      opponentProb := mkRat 3 10
      expectedValue := mkRat 8 10
      reason := mkReason ("A") (mkRat 8 10) (mkRat 3 10) } ]

/-- The metrics extracted for `inpExcl` and its optimal solution. -/
def msExcl : List Metric :=
  [ { week := 1
      selected := "C"
      opponent := "D"
      selectedProb := mkRat 3 10
      opponentProb := mkRat 25 100
      expectedValue := mkRat 3 10
      reason := mkReason ("C") (mkRat 3 10) (mkRat 25 100) } ]

/-- The first row of `inpConf`: the one its metrics step reports from. -/
def rowConfA : Row :=
  { week := 1, home := "A", homeProb := mkRat 5 10, away := "B", awayProb := mkRat 2 10 }

/-- The single metrics record extracted for `inpConf`. -/
def mConf : Metric :=
  { week := 1
    selected := "A"
    opponent := "B"
    selectedProb := mkRat 5 10
    opponentProb := mkRat 2 10
    expectedValue := mkRat 5 10
    reason := mkReason ("A") (mkRat 5 10) (mkRat 2 10) }

/-- The metrics extracted for `inpConf` and its optimal solution. -/
def msConf : List Metric :=
  [mConf]

/-- The characters after the last point of a string, reversed. -/
def afterLastDot (s : String) : List Char :=
  s.data.reverse.takeWhile (fun c => decide (c ≠ '.'))

/-- A string contains a point followed by exactly four point-free
characters: the shape of fixed 4-decimal formatting. -/
def fourDecimals (s : String) : Bool :=
  decide ('.' ∈ s.data) && decide ((afterLastDot s).length = 4)

/-! ## Helper lemmas -/

theorem takeWhile_append_all {p : Char → Bool} :
    ∀ (l1 l2 : List Char), (∀ a ∈ l1, p a = true) →
      (l1 ++ l2).takeWhile p = l1 ++ l2.takeWhile p := by
  intro l1 l2 h
  induction l1 with
  | nil => rfl
  | cons a l ih =>
    have ha : p a = true := h a (List.mem_cons_self a l)
    simp only [List.cons_append, List.takeWhile_cons, ha, if_true]
    rw [ih (fun b hb => h b (List.mem_cons_of_mem a hb))]

theorem digitChar_ne_dot (n : Nat) : digitChar n ≠ '.' := by
  unfold digitChar
  split
  · decide
  · split
    · decide
    · split
      · decide
      · split
        · decide
        · split
          · decide
          · split
            · decide
            · split
              · decide
              · split
                · decide
                · split
                  · decide
                  · decide

theorem fourDecimals_fmt4 (q : ℚ) : fourDecimals (fmt4 q) = true := by
  have hgen :
      ∀ (a : String) (c1 c2 c3 c4 : Char),
        c1 ≠ '.' → c2 ≠ '.' → c3 ≠ '.' → c4 ≠ '.' →
        fourDecimals (a ++ "." ++ String.mk [c1, c2, c3, c4]) = true := by
    intro a c1 c2 c3 c4 h1 h2 h3 h4
    have hdata : (a ++ "." ++ String.mk [c1, c2, c3, c4]).data
        = a.data ++ ['.'] ++ [c1, c2, c3, c4] := by
      rw [String.data_append, String.data_append]
    have hrev : (a.data ++ ['.'] ++ [c1, c2, c3, c4]).reverse
        = [c4, c3, c2, c1] ++ ('.' :: a.data.reverse) := by
      simp [List.reverse_append]
    have htake :
        ([c4, c3, c2, c1] ++ ('.' :: a.data.reverse)).takeWhile
            (fun c => decide (c ≠ '.'))
          = [c4, c3, c2, c1] := by
      rw [takeWhile_append_all]
      · simp [List.takeWhile_cons]
      · intro b hb
        simp only [List.mem_cons, List.not_mem_nil, or_false] at hb
        rcases hb with rfl | rfl | rfl | rfl <;> simp [h1, h2, h3, h4]
    simp only [fourDecimals, afterLastDot, hdata, hrev, htake]
    simp [hdata]
  have := hgen (toString
        ((Rat.floor (q * 10000 + mkRat 1 2)).toNat / 10000))
      (digitChar ((Rat.floor (q * 10000 + mkRat 1 2)).toNat % 10000 / 1000))
      (digitChar ((Rat.floor (q * 10000 + mkRat 1 2)).toNat % 10000 / 100))
      (digitChar ((Rat.floor (q * 10000 + mkRat 1 2)).toNat % 10000 / 10))
      (digitChar ((Rat.floor (q * 10000 + mkRat 1 2)).toNat % 10000))
      (digitChar_ne_dot _) (digitChar_ne_dot _) (digitChar_ne_dot _)
      (digitChar_ne_dot _)
  simpa [fmt4] using this

theorem zip_map_snd_of_len {α β : Type} :
    ∀ (l1 : List α) (l2 : List β), l1.length = l2.length →
      (l1.zip l2).map Prod.snd = l2 := by
  intro l1
  induction l1 with
  | nil =>
    intro l2 h
    cases l2 with
    | nil => rfl
    | cons b l => simp at h
  | cons a l ih =>
    intro l2 h
    cases l2 with
    | nil => simp at h
    | cons b l' =>
      simp only [List.zip_cons_cons, List.map_cons]
      rw [ih l' (by simpa using h)]

theorem metricOfPair_ok {inp : Inp} {w : Int} {t : String} {m : Metric}
    (h : metricOfPair inp w t = Except.ok m) :
    ∃ r, inp.rows.find? (rowMatches w t) = some r ∧
      m = { week := w
            selected := t
            opponent := if t = r.home then r.away else r.home
            selectedProb := if t = r.home then r.homeProb else r.awayProb
            opponentProb := if t = r.home then r.awayProb else r.homeProb
            expectedValue := if t = r.home then r.homeProb else r.awayProb
            reason := mkReason t (if t = r.home then r.homeProb else r.awayProb)
                (if t = r.home then r.awayProb else r.homeProb) } := by
  unfold metricOfPair at h
  cases hf : inp.rows.find? (rowMatches w t) with
  | none => rw [hf] at h; exact absurd h (by simp)
  | some r =>
    rw [hf] at h
    refine ⟨r, rfl, ?_⟩
    cases h
    rfl

theorem buildMetricsAux_ok {inp : Inp} :
    ∀ (S : List (Int × String)) (ms : List Metric),
      buildMetricsAux inp S = Except.ok ms →
      ms.map (fun m => m.selected) = S.map Prod.snd ∧
        ∀ m ∈ ms, ∃ p ∈ S, metricOfPair inp p.1 p.2 = Except.ok m := by
  intro S
  induction S with
  | nil =>
    intro ms h
    cases h
    exact ⟨rfl, by simp⟩
  | cons p l ih =>
    intro ms h
    unfold buildMetricsAux at h
    cases hp : metricOfPair inp p.1 p.2 with
    | error e => rw [hp] at h; exact absurd h (by simp)
    | ok m =>
      rw [hp] at h
      cases hl : buildMetricsAux inp l with
      | error e => rw [hl] at h; exact absurd h (by simp)
      | ok ms' =>
        rw [hl] at h
        cases h
        obtain ⟨hmap, hmem⟩ := ih ms' hl
        constructor
        · have hsel : m.selected = p.2 := by
            obtain ⟨r, _, hm⟩ := metricOfPair_ok hp
            rw [hm]
          simp only [List.map_cons, hmap, hsel]
        · intro m' hm'
          rcases List.mem_cons.mp hm' with rfl | hm'
          · exact ⟨p, List.mem_cons_self p l, hp⟩
          · obtain ⟨p', hp', he⟩ := hmem m' hm'
            exact ⟨p', List.mem_cons_of_mem p hp', he⟩

theorem buildMetricsAux_error {inp : Inp} {e : String} :
    ∀ (S : List (Int × String)) (p : Int × String), p ∈ S →
      metricOfPair inp p.1 p.2 = Except.error e →
      ∃ e2, buildMetricsAux inp S = Except.error e2 := by
  intro S
  induction S with
  | nil => intro p hp; exact absurd hp (by simp)
  | cons q l ih =>
    intro p hp herr
    rcases List.mem_cons.mp hp with rfl | hp
    · exact ⟨e, by unfold buildMetricsAux; rw [herr]⟩
    · cases hq : metricOfPair inp q.1 q.2 with
      | error e' => exact ⟨e', by unfold buildMetricsAux; rw [hq]⟩
      | ok m =>
        obtain ⟨e2, he2⟩ := ih p hp herr
        exact ⟨e2, by unfold buildMetricsAux; rw [hq, he2]⟩

theorem pickBest_mem {f : List String → ℚ} :
    ∀ {l : List (List String)} {σ : List String}, pickBest f l = some σ → σ ∈ l := by
  intro l
  induction l with
  | nil => intro σ h; exact absurd h (by simp [pickBest])
  | cons τ l ih =>
    intro σ h
    cases hl : pickBest f l with
    | none =>
      simp only [pickBest, hl, Option.some.injEq] at h
      subst h
      exact List.mem_cons_self τ l
    | some τ' =>
      simp only [pickBest, hl] at h
      by_cases hlt : f τ < f τ'
      · rw [if_pos hlt, Option.some.injEq] at h
        subst h
        exact List.mem_cons_of_mem τ (ih hl)
      · rw [if_neg hlt, Option.some.injEq] at h
        subst h
        exact List.mem_cons_self τ l

theorem pickBest_le {f : List String → ℚ} :
    ∀ {l : List (List String)} {σ : List String}, pickBest f l = some σ →
      ∀ τ ∈ l, f τ ≤ f σ := by
  intro l
  induction l with
  | nil => intro σ h; exact absurd h (by simp [pickBest])
  | cons τ0 l ih =>
    intro σ h τ hτ
    cases hl : pickBest f l with
    | none =>
      simp only [pickBest, hl, Option.some.injEq] at h
      subst h
      rcases List.mem_cons.mp hτ with rfl | hτ'
      · exact le_refl _
      · cases l with
        | nil => exact absurd hτ' (by simp)
        | cons a l' =>
          refine absurd hl ?_
          simp only [pickBest]
          cases pickBest f l' with
          | none => simp
          | some τ2 => by_cases h2 : f a < f τ2 <;> simp [h2]
    | some τ' =>
      simp only [pickBest, hl] at h
      by_cases hlt : f τ0 < f τ'
      · rw [if_pos hlt, Option.some.injEq] at h
        subst h
        rcases List.mem_cons.mp hτ with rfl | hτ'
        · exact le_of_lt hlt
        · exact ih hl τ hτ'
      · rw [if_neg hlt, Option.some.injEq] at h
        subst h
        rcases List.mem_cons.mp hτ with rfl | hτ'
        · exact le_refl _
        · exact le_trans (ih hl τ hτ') (le_of_not_lt hlt)

theorem mem_tuples (ts : List String) :
    ∀ (σ : List String), (∀ t ∈ σ, t ∈ ts) → σ ∈ tuples σ.length ts := by
  intro σ
  induction σ with
  | nil => intro _; simp [tuples]
  | cons t rest ih =>
    intro h
    simp only [List.length_cons]
    unfold tuples
    rw [List.mem_flatMap]
    refine ⟨t, h t (List.mem_cons_self t rest), ?_⟩
    rw [List.mem_map]
    exact ⟨rest, ih (fun x hx => h x (List.mem_cons_of_mem t hx)), rfl⟩

theorem mem_zip_left {α β : Type} :
    ∀ (l1 : List α) (l2 : List β), l1.length = l2.length →
      ∀ a ∈ l1, ∃ b, (a, b) ∈ l1.zip l2 := by
  intro l1
  induction l1 with
  | nil => intro l2 _ a ha; exact absurd ha (by simp)
  | cons x l ih =>
    intro l2 h a ha
    cases l2 with
    | nil => simp at h
    | cons y l' =>
      rcases List.mem_cons.mp ha with rfl | ha'
      · exact ⟨y, by simp⟩
      · obtain ⟨b, hb⟩ := ih l' (by simpa using h) a ha'
        exact ⟨b, List.mem_cons_of_mem _ hb⟩

theorem goodSol_parts {inp : Inp} {σ : List String} (h : goodSol inp σ = true) :
    σ.length = (remaining_weeks inp).length ∧
      (∀ t ∈ available_teams inp,
        ((pairsOf inp σ).filter (fun p => decide (p.2 = t))).length ≤ 1) ∧
      (∀ w ∈ remaining_weeks inp,
        ((pairsOf inp σ).filter (fun p => decide (p.1 = w))).length = 1) ∧
      (∀ p ∈ pairsOf inp σ,
        p.1 ∈ remaining_weeks inp ∧ p.2 ∈ available_teams inp) := by
  simp only [goodSol, feasible, Bool.and_eq_true, decide_eq_true_eq,
    List.all_eq_true] at h
  obtain ⟨hlen, ⟨⟨hteam, hweek⟩, hmem⟩⟩ := h
  exact ⟨hlen, hteam, hweek, hmem⟩

theorem goodSol_snd {inp : Inp} {σ : List String} (h : goodSol inp σ = true) :
    (pairsOf inp σ).map Prod.snd = σ := by
  exact zip_map_snd_of_len (remaining_weeks inp) σ (goodSol_parts h).1.symm

theorem goodSol_teams {inp : Inp} {σ : List String} (h : goodSol inp σ = true) :
    ∀ t ∈ σ, t ∈ available_teams inp := by
  intro t ht
  rw [← goodSol_snd h] at ht
  obtain ⟨p, hp, hpt⟩ := List.mem_map.mp ht
  subst hpt
  exact ((goodSol_parts h).2.2.2 p hp).2

theorem goodSol_team_once {inp : Inp} {σ : List String} (h : goodSol inp σ = true)
    (t : String) : σ.countP (fun x => decide (x = t)) ≤ 1 := by
  by_cases ht : t ∈ available_teams inp
  · have hσ := goodSol_snd h
    have hcnt : σ.countP (fun x => decide (x = t))
        = (pairsOf inp σ).countP (fun p => decide (p.2 = t)) := by
      conv_lhs => rw [← hσ]
      exact List.countP_map _ _ _
    rw [hcnt, List.countP_eq_length_filter]
    exact (goodSol_parts h).2.1 t ht
  · have : σ.countP (fun x => decide (x = t)) = 0 := by
      rw [List.countP_eq_zero]
      intro x hx
      simp only [decide_eq_true_eq]
      intro hxt
      exact ht (hxt ▸ goodSol_teams h x hx)
    omega

theorem goodSol_mem_goodSols {inp : Inp} {σ : List String}
    (h : goodSol inp σ = true) : σ ∈ goodSols inp := by
  rw [goodSols, List.mem_filter]
  refine ⟨?_, h⟩
  have hlen := (goodSol_parts h).1
  have := mem_tuples (available_teams inp) σ (goodSol_teams h)
  rwa [hlen] at this

/-! ## Claims -/

/-- C4: for every input and every feasible solution of the embedded
program, no pick appears in more than one entry of the extracted plan: each
team is selected at most once across the whole horizon. -/
theorem claim4_pick_at_most_once (inp : Inp) (σ : List String) (ms : List Metric)
    (hσ : goodSol inp σ = true) (h : buildMetrics inp σ = Except.ok ms)
    (t : String) : ms.countP (fun m => decide (m.selected = t)) ≤ 1 := by
  obtain ⟨hmap, _⟩ := buildMetricsAux_ok (pairsOf inp σ) ms h
  have h1 : (ms.map (fun m => m.selected)).countP (fun x => decide (x = t))
      = ms.countP (fun m => decide (m.selected = t)) := List.countP_map _ _ _
  rw [← h1, hmap, goodSol_snd hσ]
  exact goodSol_team_once hσ t

/-- C4 witness at a concrete two-week input. -/
theorem claim4_witness :
    goodSol inpTie ["B", "A"] = true ∧
      buildMetrics inpTie ["B", "A"] = Except.ok msTie ∧
      msTie.countP (fun m => decide (m.selected = "B")) ≤ 1 :=
  ⟨by with_unfolding_all decide, by with_unfolding_all rfl,
    claim4_pick_at_most_once inpTie ["B", "A"] msTie
      (by with_unfolding_all decide) (by with_unfolding_all rfl) ("B")⟩

/-- C5: for every input and every feasible solution, no excluded team
appears in any entry of the extracted plan as the selected pick. -/
theorem claim5_exclusion_respected (inp : Inp) (σ : List String) (ms : List Metric)
    (hσ : goodSol inp σ = true) (h : buildMetrics inp σ = Except.ok ms) :
    ∀ m ∈ ms, m.selected ∉ inp.selected_teams := by
  intro m hm
  obtain ⟨_, hmem⟩ := buildMetricsAux_ok (pairsOf inp σ) ms h
  obtain ⟨p, hp, hok⟩ := hmem m hm
  obtain ⟨r, _, hmeq⟩ := metricOfPair_ok hok
  have hsel : m.selected = p.2 := by rw [hmeq]
  have hav : p.2 ∈ available_teams inp := ((goodSol_parts hσ).2.2.2 p hp).2
  rw [hsel]
  have hf := (List.mem_filter.mp hav).2
  simpa using hf

/-- C5 witness at a concrete input with one excluded team. -/
theorem claim5_witness :
    goodSol inpExcl ["C"] = true ∧
      buildMetrics inpExcl ["C"] = Except.ok msExcl ∧
      ∀ m ∈ msExcl, m.selected ∉ inpExcl.selected_teams :=
  ⟨by with_unfolding_all decide, by with_unfolding_all rfl,
    claim5_exclusion_respected inpExcl ["C"] msExcl
      (by with_unfolding_all decide) (by with_unfolding_all rfl)⟩

/-- C6: every entry of the extracted plan has its week inside
`[current_week, current_week + optimization_duration - 1]` clipped to the
maximum week present in the input; weeks outside this window never appear. -/
theorem claim6_horizon_clipping (inp : Inp) (σ : List String) (ms : List Metric)
    (h : buildMetrics inp σ = Except.ok ms) :
    ∀ m ∈ ms, inp.current_week ≤ m.week ∧
      m.week ≤ min (inp.current_week + inp.optimization_duration - 1)
          (maxList (weeksOf inp)) := by
  intro m hm
  obtain ⟨_, hmem⟩ := buildMetricsAux_ok (pairsOf inp σ) ms h
  obtain ⟨p, hp, hok⟩ := hmem m hm
  obtain ⟨r, _, hmeq⟩ := metricOfPair_ok hok
  have hwk : m.week = p.1 := by rw [hmeq]
  obtain ⟨w, t⟩ := p
  have hp1 : w ∈ remaining_weeks inp := (List.of_mem_zip hp).1
  rw [remaining_weeks, List.mem_filter, Bool.and_eq_true, decide_eq_true_eq,
    decide_eq_true_eq] at hp1
  rw [hwk]
  exact hp1.2

/-- C6 witness at a concrete two-week input. -/
theorem claim6_witness :
    buildMetrics inpTie ["B", "A"] = Except.ok msTie ∧
      ∀ m ∈ msTie, inpTie.current_week ≤ m.week ∧
        m.week ≤ min (inpTie.current_week + inpTie.optimization_duration - 1)
            (maxList (weeksOf inpTie)) :=
  ⟨by with_unfolding_all rfl,
    claim6_horizon_clipping inpTie ["B", "A"] msTie (by with_unfolding_all rfl)⟩

/-- C9: every entry of an extracted plan carries the chosen pick, its
weight from the event row that the lookup found, the opponent pick and
weight from that same row, and the templated reason whose two embedded
probabilities are 4-decimal formatted. -/
theorem claim9_entry_fields (inp : Inp) (σ : List String) (ms : List Metric)
    (h : buildMetrics inp σ = Except.ok ms) :
    ∀ m ∈ ms, ∃ r ∈ inp.rows,
      r.week = m.week ∧ (m.selected = r.home ∨ m.selected = r.away) ∧
        m.selectedProb = (if m.selected = r.home then r.homeProb else r.awayProb) ∧
        m.opponent = (if m.selected = r.home then r.away else r.home) ∧
        m.opponentProb = (if m.selected = r.home then r.awayProb else r.homeProb) ∧
        m.reason = mkReason m.selected m.selectedProb m.opponentProb ∧
        fourDecimals (fmt4 m.selectedProb) = true ∧
        fourDecimals (fmt4 m.opponentProb) = true := by
  intro m hm
  obtain ⟨_, hmem⟩ := buildMetricsAux_ok (pairsOf inp σ) ms h
  obtain ⟨p, hp, hok⟩ := hmem m hm
  obtain ⟨r, hfind, hmeq⟩ := metricOfPair_ok hok
  have hrmem := List.mem_of_find?_eq_some hfind
  have hpred := List.find?_some hfind
  rw [rowMatches, Bool.and_eq_true, Bool.or_eq_true, decide_eq_true_eq,
    decide_eq_true_eq, decide_eq_true_eq] at hpred
  subst hmeq
  refine ⟨r, hrmem, hpred.1, ?_, rfl, rfl, rfl, rfl,
    fourDecimals_fmt4 _, fourDecimals_fmt4 _⟩
  rcases hpred.2 with hh | ha
  · exact Or.inl hh.symm
  · exact Or.inr ha.symm

/-- C9 witness at a concrete two-week input. -/
theorem claim9_witness :
    buildMetrics inpTie ["B", "A"] = Except.ok msTie ∧
      ∀ m ∈ msTie, ∃ r ∈ inpTie.rows,
        r.week = m.week ∧ (m.selected = r.home ∨ m.selected = r.away) ∧
          m.selectedProb = (if m.selected = r.home then r.homeProb else r.awayProb) ∧
          m.opponent = (if m.selected = r.home then r.away else r.home) ∧
          m.opponentProb = (if m.selected = r.home then r.awayProb else r.homeProb) ∧
          m.reason = mkReason m.selected m.selectedProb m.opponentProb ∧
          fourDecimals (fmt4 m.selectedProb) = true ∧
          fourDecimals (fmt4 m.opponentProb) = true :=
  ⟨by with_unfolding_all rfl,
    claim9_entry_fields inpTie ["B", "A"] msTie (by with_unfolding_all rfl)⟩

/-- C10: the reason of every entry of an extracted plan is exactly the
fixed template asserting the selected team has the higher probability,
whatever the actual comparison of the two probabilities is. -/
theorem claim10_reason_fixed_template (inp : Inp) (σ : List String)
    (ms : List Metric) (h : buildMetrics inp σ = Except.ok ms) :
    ∀ m ∈ ms,
      m.reason = "Selected " ++ m.selected ++ " due to higher probability of " ++
        fmt4 m.selectedProb ++ " compared to opponent" ++ apos ++
        "s probability of " ++ fmt4 m.opponentProb := by
  intro m hm
  obtain ⟨_, hmem⟩ := buildMetricsAux_ok (pairsOf inp σ) ms h
  obtain ⟨p, hp, hok⟩ := hmem m hm
  obtain ⟨r, _, hmeq⟩ := metricOfPair_ok hok
  subst hmeq
  rfl

/-- C10 witness: on `inpTie` the optimal plan selects "B" in week 1 with
probability 0.5 against an opponent at 0.9, and the reason still reads
"higher probability". -/
theorem claim10_witness :
    buildMetrics inpTie ["B", "A"] = Except.ok msTie ∧
      bruteSolve inpTie = some ["B", "A"] ∧
      msTie.countP (fun m => decide (m.selectedProb < m.opponentProb)) = 1 ∧
      ∀ m ∈ msTie,
        m.reason = "Selected " ++ m.selected ++ " due to higher probability of " ++
          fmt4 m.selectedProb ++ " compared to opponent" ++ apos ++
          "s probability of " ++ fmt4 m.opponentProb :=
  ⟨by with_unfolding_all rfl, by with_unfolding_all decide,
    by with_unfolding_all decide,
    claim10_reason_fixed_template inpTie ["B", "A"] msTie (by with_unfolding_all rfl)⟩

/-- C1 counterexample: in `inpExcl` the only optimum of the program built
by the code selects "C" (every other feasible solution has a strictly
smaller code objective), yet the eligible assignment selecting "A" has a
strictly larger total of selected success probabilities; the excluded
opponent "B" removed the whole "A" event from the code's objective. -/
theorem claim1_counterexample :
    bruteSolve inpExcl = some ["C"] ∧
      ((goodSols inpExcl).all fun τ =>
        decide (τ = ["C"]) ||
          decide (codeWeightSol inpExcl τ < codeWeightSol inpExcl ["C"])) = true ∧
      eligibleSol inpExcl ["A"] = true ∧
      specWeight inpExcl (pairsOf inpExcl ["C"]) <
        specWeight inpExcl (pairsOf inpExcl ["A"]) := by
  with_unfolding_all decide

/-- C1 amended: the plan returned maximizes the code's objective, under
which an event's edges count only when both of the event's teams are
available, so an eligible pick whose opponent is excluded contributes zero
weight; among assignments measured by that objective the returned solution
is maximal. -/
theorem claim1_amended (inp : Inp) (σ : List String)
    (h : bruteSolve inp = some σ) :
    goodSol inp σ = true ∧
      ∀ τ, goodSol inp τ = true → codeWeightSol inp τ ≤ codeWeightSol inp σ := by
  constructor
  · exact (List.mem_filter.mp (pickBest_mem h)).2
  · intro τ hτ
    exact pickBest_le h τ (goodSol_mem_goodSols hτ)

/-- C1 witness at a concrete input. -/
theorem claim1_witness :
    bruteSolve inpExcl = some ["C"] ∧
      goodSol inpExcl ["C"] = true ∧
      ∀ τ, goodSol inpExcl τ = true →
        codeWeightSol inpExcl τ ≤ codeWeightSol inpExcl ["C"] :=
  ⟨by with_unfolding_all decide,
    (claim1_amended inpExcl ["C"] (by with_unfolding_all decide)).1,
    (claim1_amended inpExcl ["C"] (by with_unfolding_all decide)).2⟩

/-- C2 counterexample: in `inpNoElig` week 1 has zero eligible picks (both
of its teams are excluded); the optimization does not report the week as
unfilled but fails globally: the metrics extraction of the optimal
solution, and of every feasible solution, raises the row-lookup error. -/
theorem claim2_counterexample :
    optimize_survivor_pool inpNoElig = some (Except.error ("IndexError")) ∧
      ((goodSols inpNoElig).all fun τ =>
        ! exceptIsOk (buildMetrics inpNoElig τ)) = true := by
  constructor
  · with_unfolding_all rfl
  · with_unfolding_all decide

/-- C2 amended: when some week of the horizon has zero eligible picks but
other available teams exist, the week-exactly-once constraint forces an
available team with no event that week, and the metrics extraction fails,
so the whole optimization returns an error instead of reporting the week
as unfilled; no unfilled-week annotation exists in the output. -/
theorem claim2_amended (inp : Inp) (w : Int) (hw : w ∈ remaining_weeks inp)
    (hempty : ∀ r ∈ inp.rows, r.week = w →
      r.home ∉ available_teams inp ∧ r.away ∉ available_teams inp)
    (res : Except String (List Metric))
    (hres : optimize_survivor_pool inp = some res) :
    ∃ e, res = Except.error e := by
  rw [optimize_survivor_pool] at hres
  cases hb : bruteSolve inp with
  | none => rw [hb] at hres; exact absurd hres (by simp)
  | some σ =>
    rw [hb] at hres
    simp only [Option.map_some', Option.some.injEq] at hres
    subst hres
    have hσ : goodSol inp σ = true := (List.mem_filter.mp (pickBest_mem hb)).2
    have hlen := (goodSol_parts hσ).1
    obtain ⟨t, hpt⟩ := mem_zip_left (remaining_weeks inp) σ hlen.symm w hw
    have hav : t ∈ available_teams inp := ((goodSol_parts hσ).2.2.2 (w, t) hpt).2
    have herr : metricOfPair inp w t = Except.error ("IndexError") := by
      rw [metricOfPair]
      have hnone : inp.rows.find? (rowMatches w t) = none := by
        rw [List.find?_eq_none]
        intro r hr
        rw [rowMatches]
        simp only [Bool.and_eq_true, Bool.or_eq_true, decide_eq_true_eq, not_and,
          not_or]
        intro hrw
        obtain ⟨hh, ha⟩ := hempty r hr hrw
        constructor
        · intro hhome
          exact hh (by rw [hhome]; exact hav)
        · intro haway
          exact ha (by rw [haway]; exact hav)
      rw [hnone]
    obtain ⟨e2, he2⟩ := buildMetricsAux_error (pairsOf inp σ) (w, t) hpt herr
    exact ⟨e2, he2⟩

/-- C2 witness at a concrete input whose week 1 has zero eligible picks. -/
theorem claim2_witness :
    (1 : Int) ∈ remaining_weeks inpNoElig ∧
      ∃ e, optimize_survivor_pool inpNoElig = some (Except.error e) := by
  refine ⟨by with_unfolding_all decide, ?_⟩
  obtain ⟨e, he⟩ := claim2_amended inpNoElig 1 (by with_unfolding_all decide)
    (by with_unfolding_all decide) (Except.error ("IndexError"))
    (by with_unfolding_all rfl)
  refine ⟨e, ?_⟩
  rw [show optimize_survivor_pool inpNoElig
    = some (Except.error ("IndexError")) from by with_unfolding_all rfl, he]

/-- C7 counterexample: with a non-positive duration the optimization does
not fail; it returns an empty plan. -/
theorem claim7_counterexample :
    inpDur.optimization_duration ≤ 0 ∧
      optimize_survivor_pool inpDur = some (Except.ok []) := by
  constructor
  · with_unfolding_all decide
  · with_unfolding_all rfl

/-- C7 amended: the code performs no horizon validation; an empty or
inverted horizon (non-positive duration, or a start past the clipped end)
makes `remaining_weeks` empty, no variable or constraint is created, and
the optimization returns an empty plan instead of raising an error. -/
theorem claim7_amended (inp : Inp)
    (h : inp.optimization_duration ≤ 0 ∨ end_week inp < inp.current_week) :
    optimize_survivor_pool inp = some (Except.ok []) := by
  have hlt : end_week inp < inp.current_week := by
    rcases h with h | h
    · have h1 : end_week inp ≤ inp.current_week + inp.optimization_duration - 1 :=
        min_le_left _ _
      omega
    · exact h
  have hrw : remaining_weeks inp = [] := by
    rw [remaining_weeks, List.filter_eq_nil_iff]
    intro w hw
    simp only [Bool.and_eq_true, decide_eq_true_eq, not_and]
    intro h1 h2
    omega
  have hgood : goodSol inp [] = true := by
    simp [goodSol, feasible, pairsOf, hrw]
  have hsolve : bruteSolve inp = some [] := by
    rw [bruteSolve, goodSols, hrw]
    simp only [List.length_nil, tuples]
    rw [List.filter_cons_of_pos hgood, List.filter_nil]
    rfl
  rw [optimize_survivor_pool, hsolve]
  simp only [Option.map_some', Option.some.injEq]
  rw [buildMetrics, pairsOf, List.zip_nil_right]
  rfl

/-- C7 witness at a concrete input with duration 0. -/
theorem claim7_witness :
    (inpDur.optimization_duration ≤ 0 ∨ end_week inpDur < inpDur.current_week) ∧
      optimize_survivor_pool inpDur = some (Except.ok []) :=
  ⟨Or.inl (by with_unfolding_all decide),
    claim7_amended inpDur (Or.inl (by with_unfolding_all decide))⟩

/-- C8 counterexample: in `inpConf` team "A" appears in two events of week
1; no error is raised: the optimization returns a plan whose entry reports
the first matching event, and the objective of selecting "A" is the sum
0.5 + 0.4 of its weights across both events. -/
theorem claim8_counterexample :
    optimize_survivor_pool inpConf = some (Except.ok msConf) ∧
      codeWeightSol inpConf ["A"] = mkRat 9 10 := by
  constructor
  · with_unfolding_all rfl
  · with_unfolding_all decide

/-- C8 amended: a pick appearing in several events of one week is not
detected; the extraction succeeds and every plan entry reads all of its
event data off the first row matching its week and selected pick. -/
theorem claim8_amended (inp : Inp) (σ : List String) (ms : List Metric)
    (h : buildMetrics inp σ = Except.ok ms) (m : Metric) (hm : m ∈ ms) (r : Row)
    (hr : inp.rows.find? (rowMatches m.week m.selected) = some r) :
    m.opponent = (if m.selected = r.home then r.away else r.home) ∧
      m.selectedProb = (if m.selected = r.home then r.homeProb else r.awayProb) ∧
      m.opponentProb = (if m.selected = r.home then r.awayProb else r.homeProb) := by
  obtain ⟨_, hmem⟩ := buildMetricsAux_ok (pairsOf inp σ) ms h
  obtain ⟨p, hp, hok⟩ := hmem m hm
  obtain ⟨r0, hfind, hmeq⟩ := metricOfPair_ok hok
  have hw : m.week = p.1 := by rw [hmeq]
  have hs : m.selected = p.2 := by rw [hmeq]
  rw [hw, hs, hfind, Option.some.injEq] at hr
  subst hr
  subst hmeq
  exact ⟨rfl, rfl, rfl⟩

/-- C8 witness at a concrete input with a duplicated pick in week 1. -/
theorem claim8_witness :
    buildMetrics inpConf ["A"] = Except.ok msConf ∧
      mConf ∈ msConf ∧
      inpConf.rows.find? (rowMatches mConf.week mConf.selected) = some rowConfA ∧
      mConf.opponent = (if mConf.selected = rowConfA.home then rowConfA.away
        else rowConfA.home) ∧
      mConf.selectedProb = (if mConf.selected = rowConfA.home then rowConfA.homeProb
        else rowConfA.awayProb) ∧
      mConf.opponentProb = (if mConf.selected = rowConfA.home then rowConfA.awayProb
        else rowConfA.homeProb) := by
  refine ⟨by with_unfolding_all rfl, by with_unfolding_all decide,
    by with_unfolding_all decide, ?_⟩
  exact claim8_amended inpConf ["A"] msConf (by with_unfolding_all rfl) mConf
    (by with_unfolding_all decide) rowConfA (by with_unfolding_all decide)
